import Mathlib

/-!
Shallow embedding of the decomp-permuter search driver (src/main.py) and the
permuter@home server runtime (src/net/server.py), with theorems settling the
claims about the coordinator loop, the local worker loop, result handling,
interrupt handling, output-directory allocation, the fair round-robin seed
stream, and the server's active-handle state machine.

Conventions used throughout:
- Python integers are modelled as `Nat`/`Int` (no overflow is involved).
- Queue interactions of a single loop are modelled by feeding the loop the
  finite trace of values it observes at each queue operation.
- Printing and other I/O side effects are recorded as explicit fields or
  logs in the produced value; their textual content is abstracted to the
  parts the claims mention.
-/

/- ===================================================================
   Local worker loop: `multiprocess_worker` (src/main.py lines 200-235)
   =================================================================== -/

/-- Tasks travelling coordinator → worker on the task queue: either a
`(permuter_index, seed)` pair or the `Finished` sentinel (with optional
reason, as in `src/permuter.py`'s `Finished`). -/
inductive WTask where
  | work (permIndex seed : Nat)
  | finished (reason : Option String)
deriving DecidableEq, Repr

/-- Outcome of one `input_queue.get` attempt by the worker, as seen from the
worker: either the queue was momentarily empty at that instant, or an item
was obtained.  `got none` models a literal Python `None` sitting in the
queue (the shape `multiprocess_worker`'s `is None` test looks for). -/
inductive GetEvent where
  | empty
  | got (item : Option WTask)
deriving DecidableEq, Repr

/-- Feedback items the worker puts on the feedback queue (the eval result
payload of `WorkDone` is abstracted; we record which task was evaluated). -/
inductive WFeedback where
  | needMoreWork
  | finishedFb (reason : Option String)
  | workDone (permIndex seed : Nat)
deriving DecidableEq, Repr

/-- How a run of the worker loop ended. -/
inductive WorkerEnd where
  | crashed (exc : String)
  | finishedEnd
  | waiting
deriving DecidableEq, Repr

/-- Model of `multiprocess_worker` (src/main.py lines 200-235).  The first
argument is `should_block` (initially `False` in the source); the trace lists
what each successive `input_queue.get` observes.  Per Python semantics,
`get(block=False)` on an empty queue raises `queue.Empty`; the `try` in the
source only catches `KeyboardInterrupt`, so that exception escapes and kills
the worker process.  A blocking `get` on an empty queue just keeps waiting.
Returns the feedback items put on the output queue, and how the loop ended
(`waiting` if the trace ends while the worker is still looping). -/
def multiprocess_worker : Bool → List GetEvent → List WFeedback × WorkerEnd
  | _, [] => ([], .waiting)
  | sb, .empty :: rest =>
      if sb then multiprocess_worker sb rest
      else ([], .crashed "queue.Empty")
  | _, .got none :: rest =>
      let r := multiprocess_worker true rest
      (.needMoreWork :: r.1, r.2)
  | _, .got (some (.finished reason)) :: _ => ([.finishedFb reason], .finishedEnd)
  | _, .got (some (.work i s)) :: rest =>
      let r := multiprocess_worker false rest
      (.workDone i s :: r.1, r.2)

/- ===================================================================
   Result handling: `post_score` (src/main.py lines 116-175)
   =================================================================== -/

/-- Eval results flowing back to the coordinator (`EvalResult` from
`src/permuter.py`): an internal failure with exception text and optional
seed tuple, or a candidate with a score (its other payload is irrelevant to
the claims and abstracted). -/
inductive EvalResult where
  | evalError (excStr : String) (seed : Option (Nat × Nat))
  | cand (score : Int)
deriving DecidableEq, Repr

/-- Observable effects of one `post_score` call. -/
structure PostEffects where
  printedFailureLine : Bool
  printedExcStr : Bool
  printedReproducer : Bool
  printedDiff : Bool
  errorsDelta : Nat
  iterationDelta : Nat
  wroteOutput : Bool
  exitedCode : Option Nat
  retVal : Option Bool
deriving DecidableEq, Repr

/-- Model of `post_score` (src/main.py lines 116-175).  Parameters carry the
parts of `context` and `permuter` the function reads: the
`abort_exceptions` / `print_diffs` options, the scorer's `PENALTY_INF`
sentinel, and the boolean outcome of `permuter.should_output(result)` (that
predicate lives in src/permuter.py and is passed in abstractly).  Timing
statistics and the exact status/color strings are pure printing and are not
tracked.  `retVal` is `none` when the call does not return (`sys.exit`). -/
def post_score (abortExceptions printDiffs : Bool) (penaltyInf : Int)
    (shouldOut : Bool) (result : EvalResult) : PostEffects :=
  match result with
  | .evalError _ seed =>
      { printedFailureLine := true
        printedExcStr := true
        printedReproducer := seed.isSome
        printedDiff := false
        errorsDelta := 0
        iterationDelta := 0
        wroteOutput := false
        exitedCode := if abortExceptions then some 1 else none
        retVal := if abortExceptions then none else some false }
  | .cand score =>
      { printedFailureLine := false
        printedExcStr := false
        printedReproducer := false
        printedDiff := printDiffs
        errorsDelta := if score = penaltyInf then 1 else 0
        iterationDelta := 1
        wroteOutput := shouldOut
        exitedCode := none
        retVal := some (score = 0) }

/- ===================================================================
   Interrupt handling: `run` (src/main.py lines 237-254)
   =================================================================== -/

/-- How `run` ends. -/
inductive RunOutcome where
  | completed
  | exitClean
  | abortStuck
deriving DecidableEq, Repr

/-- Model of the `last_time` cell: `run` initialises it to the current time
and the `heartbeat` closure overwrites it on every call.  `heartbeatLast t0
ts` is its value after `heartbeat` has run at each time in `ts`. -/
def heartbeatLast (t0 : Int) (ts : List Int) : Int :=
  ts.foldl (fun _ t => t) t0

/-- Model of `run` (src/main.py lines 237-254).  `t0` is the start time;
`iterTimes` lists the times at which `run_inner` calls `heartbeat` (once per
iteration of its loops).  `intr` is `none` when no `KeyboardInterrupt` is
raised (normal completion), or `some (k, tIntr)`: the interrupt reaches the
`except` handler after the first `k` heartbeats, with `time.time()` reading
`tIntr` there.  Per the source, the handler compares `tIntr` with the last
heartbeat: more than 5 seconds apart means "Aborting stuck process." and
`sys.exit(1)`; otherwise "Exiting." and `sys.exit(0)`. -/
def run (t0 : Int) (iterTimes : List Int) (intr : Option (Nat × Int)) : RunOutcome :=
  match intr with
  | none => .completed
  | some (k, tIntr) =>
      if tIntr - heartbeatLast t0 (iterTimes.take k) > 5 then .abortStuck
      else .exitClean

/- ===================================================================
   Coordinator drain phase: end of `run_inner` (src/main.py lines 411-427)
   =================================================================== -/

/-- Feedback items as seen by the coordinator main loop.  For `WorkDone` we
record the boolean that `process_result` (i.e. `post_score`) returns for it:
whether the result's score is zero. -/
inductive CFeedback where
  | finished (reason : Option String)
  | message (text : String)
  | needMoreWork
  | workDone (permIndex : Nat) (isZero : Bool)
deriving DecidableEq, Repr

/-- Model of the "Signal workers to stop." loop (src/main.py lines 412-413):
`for i in range(active_workers): task_queue.put(Finished())`. -/
def signalFinished : Nat → List WTask
  | 0 => []
  | n + 1 => signalFinished n ++ [.finished none]

/-- Result of the drain loop. -/
structure DrainOut where
  /-- the `isZero` flags of the `WorkDone`s passed to `post_score`, in order -/
  scored : List Bool
  /-- number of feedback items dequeued -/
  consumed : Nat
  /-- number of `Finished` items dequeued -/
  finishedSeen : Nat
  /-- final value of `found_zero` -/
  foundZero : Bool
deriving DecidableEq, Repr

/-- Model of the "Await final results." loop (src/main.py lines 416-427).
State: `active` is `active_workers`, `fz` is `found_zero`; `fbs` is the
sequence of items the feedback queue will deliver.  `process_finish`
decrements `active_workers`; a `WorkDone` is passed to `process_result`
only when `not (options.stop_on_zero and found_zero)`, and `found_zero` is
set if `process_result` returns true.  If the trace runs out while
`active > 0` the real loop would block; the model stops there. -/
def drainLoop (stopOnZero : Bool) : Nat → Bool → List CFeedback → DrainOut
  | 0, fz, _ => ⟨[], 0, 0, fz⟩
  | _ + 1, fz, [] => ⟨[], 0, 0, fz⟩
  | active + 1, fz, fb :: rest =>
      match fb with
      | .finished _ =>
          let r := drainLoop stopOnZero active fz rest
          ⟨r.scored, r.consumed + 1, r.finishedSeen + 1, r.foundZero⟩
      | .message _ =>
          let r := drainLoop stopOnZero (active + 1) fz rest
          ⟨r.scored, r.consumed + 1, r.finishedSeen, r.foundZero⟩
      | .needMoreWork =>
          let r := drainLoop stopOnZero (active + 1) fz rest
          ⟨r.scored, r.consumed + 1, r.finishedSeen, r.foundZero⟩
      | .workDone _ z =>
          if stopOnZero && fz then
            let r := drainLoop stopOnZero (active + 1) fz rest
            ⟨r.scored, r.consumed + 1, r.finishedSeen, r.foundZero⟩
          else
            let r := drainLoop stopOnZero (active + 1) (fz || z) rest
            ⟨z :: r.scored, r.consumed + 1, r.finishedSeen, r.foundZero⟩

/-- Counts the `Finished` items in a feedback list. -/
def countFin (l : List CFeedback) : Nat :=
  l.countP (fun fb => match fb with | .finished _ => true | _ => false)

/-- The `isZero` flags of the `WorkDone` items of a feedback list, in order. -/
def wdFlags (l : List CFeedback) : List Bool :=
  l.filterMap (fun fb => match fb with | .workDone _ z => some z | _ => none)

/-- Keeps everything up to and including the first `true`; drops the rest. -/
def takeThroughFirstTrue : List Bool → List Bool
  | [] => []
  | b :: r => if b then [true] else b :: takeThroughFirstTrue r

/- ===================================================================
   Output directories: `write_candidate` (src/main.py lines 92-113)
   =================================================================== -/

/-- The directory name `os.path.join(perm.dir, f"output-{score}-{ctr}")`
attempted by `write_candidate`. -/
def outputDirName (permDir : String) (score : Int) (ctr : Nat) : String :=
  permDir ++ "/output-" ++ toString score ++ "-" ++ toString ctr

/-- The retry loop of `write_candidate` (src/main.py lines 94-102): starting
from counter value `ctr` (initially 0), increment the counter, attempt
`os.mkdir` on the corresponding name — which raises `FileExistsError` iff
the name is in `existing`, the set of paths currently present — and repeat
on failure, stopping at the first success.  `fuel` bounds the number of
attempts so the model is structurally recursive; `findOutputCtr` returns the
counter value of the first successful `mkdir`, or `none` if fuel ran out. -/
def findOutputCtr (existing : List String) (permDir : String) (score : Int) :
    Nat → Nat → Option Nat
  | _, 0 => none
  | ctr, fuel + 1 =>
      if outputDirName permDir score (ctr + 1) ∈ existing then
        findOutputCtr existing permDir score (ctr + 1) fuel
      else some (ctr + 1)

/-- Model of `write_candidate`'s directory allocation: the loop starts at
`ctr = 0`; `existing.length + 1` attempts always suffice, since at most
`existing.length` names can collide (the attempted names being distinct). -/
def write_candidate (existing : List String) (permDir : String) (score : Int) :
    Option Nat :=
  findOutputCtr existing permDir score 0 (existing.length + 1)

/- ===================================================================
   Server runtime: `Server._handle_message` and friends
   (src/net/server.py lines 392-669)
   =================================================================== -/

/-- A connected client's identity (src/net/server.py lines 39-42). -/
structure Client where
  id : String
  nickname : String
deriving DecidableEq, Repr

/-- The permuter payload of an `AddPermuter`.  Of `PermuterData`'s fields the
server reads `fn_name`, `source` and `target_o_bin`; the remaining JSON
fields ride along opaquely inside the `add` message and are not modelled. -/
structure SPermuterData where
  fnName : String
  source : String
  targetOBin : List Nat
deriving DecidableEq, Repr

/-- The `obj` dict of an evaluator `result` message: an optional `score`
field, plus the `permuter` key that `_handle_message` writes into it; the
remaining keys ride along opaquely. -/
structure WorkObj where
  scoreVal : Option Int
  permuterField : Option Nat
deriving DecidableEq, Repr

/-- Events consumed by the server main loop (the `Activity` union,
src/net/server.py lines 127-140).  `perm_id` strings coming back from the
evaluator are `str(handle)` for the original integer handle and are parsed
back with `int(...)`; since that round-trip is the identity the model
carries the integer.  `time_us` (a float used only as an opaque pass-through
payload) is carried as an integer. -/
inductive Activity where
  | addPermuter (handle : Nat) (client : Client) (permuterData : SPermuterData)
  | removePermuter (handle : Nat)
  | work (handle : Nat) (seed : Nat)
  | immediateDisconnect (handle : Nat) (client : Client) (reason : String)
  | disconnect (handle : Nat)
  | permInitFail (permId : Nat) (error : String)
  | permInitSuccess (permId : Nat) (baseScore : Int) (baseHash : String) (timeUs : Int)
  | workDone (permId : Nat) (obj : WorkObj) (timeUs : Int) (compressedSource : Option (List Nat))
  | needMoreWork
  | netThreadDisconnected (threadId : Nat)
  | heartbeat
  | shutdown
deriving DecidableEq, Repr

/-- Messages written to the evaluator port, oldest first.  `addJson` is the
`{"type":"add","id":str(h),...}` JSON frame; `rawSource`/`rawTarget` are the
two raw frames `_send_permuter` sends right after it; `workJson` and
`removeJson` are the `work`/`remove` JSON frames.  Ids are `str(handle)`;
the model keys them by the integer handle (stringification is injective). -/
inductive EvalMsg where
  | addJson (id : Nat) (data : SPermuterData)
  | rawSource (bytes : String)
  | rawTarget (bytes : List Nat)
  | workJson (id : Nat) (seed : Nat)
  | removeJson (id : Nat)
deriving DecidableEq, Repr

/-- Messages forwarded to the net thread's controller queue (the `Output`
union, src/net/server.py lines 175-182). -/
inductive SOutput where
  | outputInitFail (handle : Nat) (error : String)
  | outputInitSuccess (handle : Nat) (baseScore : Int) (baseHash : String) (timeUs : Int)
  | outputDisconnect (handle : Nat)
  | outputNeedMoreWork
  | outputWork (handle : Nat) (timeUs : Int) (obj : WorkObj) (compressedSource : Option (List Nat))
  | shutdownOut
deriving DecidableEq, Repr

/-- Per-handle messages put on the io queue (the `IoMessage` union). -/
inductive IoMsg where
  | ioConnect (fnName : String) (client : Client)
  | ioDisconnect (reason : String)
  | ioImmediateDisconnect (reason : String) (client : Client)
  | ioWorkDone (score : Option Int) (isImprovement : Bool)
deriving DecidableEq, Repr

/-- Server state: the `_active` set (a Python set of ints, modelled as a
duplicate-free list in insertion order), the attached net thread's id if
any (`_net_thread`), and append-only logs of everything sent to the
evaluator port, to the net thread's controller queue, and to the io queue.
The global `IoWillSleep` notification emitted by `_main_loop` depends on
queue emptiness across threads and is outside this per-message model. -/
structure ServerState where
  active : List Nat
  netThread : Option Nat
  evalSent : List EvalMsg
  controllerSent : List SOutput
  ioSent : List (Nat × IoMsg)
deriving DecidableEq, Repr

/-- Model of `Server._send_controller` (lines 420-422): the message reaches
the controller queue only when a net thread is attached. -/
def sendController (s : ServerState) (msg : SOutput) : ServerState :=
  match s.netThread with
  | some _ => { s with controllerSent := s.controllerSent ++ [msg] }
  | none => s

/-- Model of `Server._send_io` (lines 424-425). -/
def sendIo (s : ServerState) (handle : Nat) (m : IoMsg) : ServerState :=
  { s with ioSent := s.ioSent ++ [(handle, m)] }

/-- Model of `Server._need_work` (lines 557-558). -/
def needWork (s : ServerState) : ServerState :=
  sendController s .outputNeedMoreWork

/-- Model of `Server._remove` (lines 560-562): send the `remove` JSON to the
evaluator, then drop the handle from the active set.  (All call sites have
already checked membership, so Python's `set.remove` cannot raise here.) -/
def removeHandle (s : ServerState) (handle : Nat) : ServerState :=
  { s with evalSent := s.evalSent ++ [.removeJson handle],
           active := s.active.erase handle }

/-- Model of `Server._send_permuter` (lines 564-569): the `add` JSON frame
followed by the two raw frames (source bytes, target-object bytes). -/
def sendPermuter (s : ServerState) (id : Nat) (perm : SPermuterData) : ServerState :=
  { s with evalSent :=
      s.evalSent ++ [.addJson id perm, .rawSource perm.source, .rawTarget perm.targetOBin] }

/-- Model of `Server._handle_message` (src/net/server.py lines 430-555).
`Except` captures the two `raise Exception(...)` paths. -/
def handleMessage (s : ServerState) : Activity → Except String ServerState
  | .shutdown => .ok s
  | .heartbeat => .ok s
  | .work handle seed =>
      if handle ∈ s.active then
        .ok { s with evalSent := s.evalSent ++ [.workJson handle seed] }
      else .ok (needWork s)
  | .addPermuter handle client pd =>
      if handle ∈ s.active then .error "Repeated AddPermuter!"
      else
        let s1 := { s with active := s.active ++ [handle] }
        let s2 := sendPermuter s1 handle pd
        .ok (sendIo s2 handle (.ioConnect pd.fnName client))
  | .removePermuter handle =>
      if handle ∈ s.active then
        .ok (sendIo (removeHandle s handle) handle (.ioDisconnect "disconnected"))
      else .ok s
  | .disconnect handle =>
      if handle ∈ s.active then
        .ok (sendController
          (sendIo (removeHandle s handle) handle (.ioDisconnect "kicked"))
          (.outputDisconnect handle))
      else .ok s
  | .immediateDisconnect handle client _reason =>
      if handle ∈ s.active then .error "ImmediateDisconnect is not immediate"
      else
        .ok (sendController
          (sendIo s handle (.ioImmediateDisconnect "sent garbage message" client))
          (.outputDisconnect handle))
  | .permInitFail permId err =>
      if permId ∈ s.active then
        let s1 := { s with active := s.active.erase permId }
        .ok (sendController (sendIo s1 permId (.ioDisconnect "failed to compile"))
          (.outputInitFail permId err))
      else .ok (needWork s)
  | .permInitSuccess permId baseScore baseHash timeUs =>
      if permId ∈ s.active then
        .ok (sendController s (.outputInitSuccess permId baseScore baseHash timeUs))
      else .ok (needWork s)
  | .workDone permId obj timeUs cs =>
      if permId ∈ s.active then
        let obj1 := { obj with permuterField := some permId }
        let s1 := sendIo s permId (.ioWorkDone obj1.scoreVal cs.isSome)
        .ok (sendController s1 (.outputWork permId timeUs obj1 cs))
      else .ok (needWork s)
  | .needMoreWork => .ok (needWork s)
  | .netThreadDisconnected tid =>
      match s.netThread with
      | none => .ok s
      | some cur =>
          if tid ≠ cur then .ok s
          else
            let s1 := s.active.foldl (fun st h => removeHandle st h) s
            .ok { s1 with controllerSent := s1.controllerSent ++ [.shutdownOut],
                          netThread := none }

/-- Server state right after `__init__` + `start()`: empty active set, the
net thread with id 0 attached, nothing sent yet. -/
def initialServer : ServerState := ⟨[], some 0, [], [], []⟩

/-- Model of `Server._main_loop` (lines 624-633) driving `_handle_message`
over a queue of events: it breaks on `Shutdown` before dispatching it, and
an uncaught `raise` inside `_handle_message` ends the loop with that error. -/
def runServer : ServerState → List Activity → Except String ServerState
  | s, [] => .ok s
  | s, .shutdown :: _ => .ok s
  | s, a :: rest =>
      match handleMessage s a with
      | .error e => .error e
      | .ok s1 => runServer s1 rest

/-- Scans an evaluator log newest-first; `true` iff the most recent
add/remove event for handle `h` is an add. -/
def addPendingR (h : Nat) : List EvalMsg → Bool
  | [] => false
  | .addJson id _ :: rest => if id = h then true else addPendingR h rest
  | .removeJson id :: rest => if id = h then false else addPendingR h rest
  | _ :: rest => addPendingR h rest

/-- In the (oldest-first) evaluator log, an `add` for handle `h` has been
sent and no `remove` for `h` has been sent since that add. -/
def addPending (h : Nat) (log : List EvalMsg) : Bool :=
  addPendingR h log.reverse

/- ===================================================================
   Fair round-robin seed stream: `cycle_seeds` (src/main.py lines 178-197)
   =================================================================== -/

/-- Upper bound on the number of loop iterations `cycle_seeds` can still
perform on iterator state `its`: each iteration either yields one seed or
deletes one iterator, so `Σ (length + 1)` iterations always suffice. -/
def iterMeasure (its : List (Nat × List Nat)) : Nat :=
  (its.map (fun p => p.2.length + 1)).sum

/-- The loop of `cycle_seeds` (src/main.py lines 188-197).  `its` is the
`iterators` list: each element pairs the (fixed) permuter index with the
seeds its iterator has yet to produce, and `i` is the rotation index, an
arbitrary-sign Python int reduced by `i %= len(iterators)` at the top of
each iteration (Lean's `Int` `%` is Python's `%` for a positive modulus).
`next(it, None)` returning `None` is the empty-list case: the iterator is
deleted (`del iterators[i]`) and `i` is decremented; otherwise the pair is
yielded and `i` incremented.  `fuel` makes the recursion structural; it is
never exhausted when the function is entered with `iterMeasure its < fuel`. -/
def cycleSeedsAux : Nat → List (Nat × List Nat) → Int → List (Nat × Nat)
  | 0, _, _ => []
  | fuel + 1, its, i =>
      if its.isEmpty then []
      else
        let n : Int := its.length
        let j : Nat := (i % n).toNat
        match its.getD j (0, []) with
        | (_, []) => cycleSeedsAux fuel (its.eraseIdx j) ((j : Int) - 1)
        | (ind, x :: xs) =>
            (ind, x) :: cycleSeedsAux fuel (its.set j (ind, xs)) ((j : Int) + 1)

/-- Model of `cycle_seeds` (src/main.py lines 178-197): each permuter is
abstracted to the (finite) list of seeds its `seed_iterator()` yields, and
`zip(itertools.repeat(perm_ind), it)` becomes `List.enum`.  Yields all
`(permuter index, seed)` pairs, cycling over the permuters. -/
def cycle_seeds (perms : List (List Nat)) : List (Nat × Nat) :=
  cycleSeedsAux (iterMeasure perms.enum + 1) perms.enum 0

/-- Number of yields by permuter `j` strictly between positions `a` and `b`
of the yield stream `out`. -/
def countBetween (out : List (Nat × Nat)) (j a b : Nat) : Nat :=
  ((out.drop (a + 1)).take (b - (a + 1))).countP (fun p => p.1 = j)

/-- Permuter `j` still yields at or after position `k` of `out` — so its
seed iterator is certainly not yet exhausted at position `k`. -/
def liveAt (out : List (Nat × Nat)) (j k : Nat) : Bool :=
  (out.drop k).any (fun p => p.1 = j)

/-- Formalisation of the claimed fairness guarantee on a yield stream:
between two successive yields of permuter `i` (positions `a < b` both
yielding `i`, with no yield of `i` in between), every other permuter whose
iterator is not yet exhausted (it still yields at or after `b`) yields
exactly once. -/
def fairRoundRobin (out : List (Nat × Nat)) : Prop :=
  ∀ a b, a < b → b < out.length →
    (out.getD a (0, 0)).1 = (out.getD b (0, 0)).1 →
    countBetween out (out.getD a (0, 0)).1 a b = 0 →
    ∀ j, j ≠ (out.getD a (0, 0)).1 → liveAt out j b = true →
      countBetween out j a b = 1

/-- Spec-side definition of the strict round-robin interleaving of `N`
equal-length seed sequences, following the claim's wording: in each full
rotation every permuter yields one seed, in index order, and the rotation
repeats on the remainders until the common length is exhausted. -/
def specRoundRobin (perms : List (List Nat)) : Nat → List (Nat × Nat)
  | 0 => []
  | l + 1 =>
      perms.enum.map (fun p => (p.1, p.2.headD 0)) ++
        specRoundRobin (perms.map (fun s => s.tail)) l

/-- Spec-side description (from claim C3's wording) of which `WorkDone`s
get scored during the drain: all of them, unless `stop_on_zero` is set, in
which case none once a zero is already locked in, and otherwise everything
up to and including the first zero. -/
def scoredSpec (stopOnZero fz : Bool) (flags : List Bool) : List Bool :=
  if stopOnZero then (if fz then [] else takeThroughFirstTrue flags) else flags

/-- The per-active-handle invariant of claim C8, as a predicate on server
states, strengthened with duplicate-freeness of the active list (true of a
Python set by construction, and needed to reason about the removal loop in
the `NetThreadDisconnected` handler). -/
def serverInv (s : ServerState) : Prop :=
  s.active.Nodup ∧ ∀ h ∈ s.active, addPending h s.evalSent = true

/- ===================================================================
   Theorems
   =================================================================== -/

/-- C2.  The claim says the worker, finding no task immediately available
on its first (non-blocking) dequeue, emits `NeedMoreWork` and switches to a
blocking dequeue, never crashing merely because the queue was momentarily
empty.  The code disagrees: `input_queue.get(block=False)` on an empty
queue raises `queue.Empty`, which the worker's `try` (catching only
`KeyboardInterrupt`) lets escape, killing the worker with no feedback
emitted.  (The `queue_item is None` branch that would emit `NeedMoreWork`
is unreachable: the coordinator only ever enqueues `(index, seed)` pairs
and `Finished` sentinels, never `None`.)  This theorem evaluates the worker
at the failing input: any run whose first dequeue finds the queue empty. -/
theorem multiprocess_worker_empty_queue_crash (rest : List GetEvent) :
    multiprocess_worker false (.empty :: rest) =
      ([], .crashed "queue.Empty") := rfl

/-- C5.  Asymmetric membership errors in `Server._handle_message`: a
`RemovePermuter` for a handle outside the active set returns silently, with
the state (including all send logs) unchanged, while an `AddPermuter` for a
handle already in the active set raises `Exception("Repeated AddPermuter!")`. -/
theorem server_membership_asymmetry (s : ServerState) (h : Nat)
    (client : Client) (pd : SPermuterData) :
    (h ∉ s.active → handleMessage s (.removePermuter h) = .ok s) ∧
    (h ∈ s.active →
      handleMessage s (.addPermuter h client pd) = .error "Repeated AddPermuter!") := by
  constructor
  · intro hm
    simp [handleMessage, hm]
  · intro hm
    simp [handleMessage, hm]

/-- Witness for C5 at a concrete state: handle 2 is not active (silent
no-op), handle 1 is active (raise). -/
theorem server_membership_asymmetry_witness :
    handleMessage ⟨[1], some 0, [], [], []⟩ (.removePermuter 2) =
        .ok ⟨[1], some 0, [], [], []⟩ ∧
    handleMessage ⟨[1], some 0, [], [], []⟩
        (.addPermuter 1 ⟨"c", "n"⟩ ⟨"f", "s", []⟩) =
      .error "Repeated AddPermuter!" :=
  ⟨(server_membership_asymmetry ⟨[1], some 0, [], [], []⟩ 2 ⟨"c", "n"⟩ ⟨"f", "s", []⟩).1
      (by decide),
   (server_membership_asymmetry ⟨[1], some 0, [], [], []⟩ 1 ⟨"c", "n"⟩ ⟨"f", "s", []⟩).2
      (by decide)⟩

/-- C6 counterexample.  The claim says `post_score` on an `EvalError`
always prints the seed-tuple reproducer line and counts the error in the
running tally.  The code prints the reproducer only under
`if result.seed is not None:`, and returns from the `EvalError` branch
before the `context.errors += 1` path (which is reached only for
`PENALTY_INF`-scored candidates) — so an `EvalError` with `seed = None`
gets no reproducer line, and no `EvalError` is ever counted in
`context.errors`. -/
theorem post_score_evalError_counterexample :
    (post_score false false 0 false (.evalError "ZeroDivisionError" none)).printedReproducer
        = false ∧
    (post_score false false 0 false
        (.evalError "ZeroDivisionError" (some (0, 42)))).errorsDelta = 0 := by
  constructor <;> rfl

/-- C6 amended.  For every `WorkDone` carrying an `EvalError`, `post_score`
prints the failure notice and the exception text, prints the seed-tuple
reproducer line iff the error carries a seed, leaves the error tally and
iteration counter unchanged, writes no output directory, and terminates the
whole run with exit status 1 if and only if `abort_exceptions` is set
(returning `False` otherwise). -/
theorem post_score_evalError_effects (abortExceptions printDiffs : Bool)
    (penaltyInf : Int) (shouldOut : Bool) (exc : String)
    (seed : Option (Nat × Nat)) :
    (post_score abortExceptions printDiffs penaltyInf shouldOut
        (.evalError exc seed)).printedFailureLine = true ∧
    (post_score abortExceptions printDiffs penaltyInf shouldOut
        (.evalError exc seed)).printedExcStr = true ∧
    (post_score abortExceptions printDiffs penaltyInf shouldOut
        (.evalError exc seed)).printedReproducer = seed.isSome ∧
    (post_score abortExceptions printDiffs penaltyInf shouldOut
        (.evalError exc seed)).errorsDelta = 0 ∧
    (post_score abortExceptions printDiffs penaltyInf shouldOut
        (.evalError exc seed)).iterationDelta = 0 ∧
    (post_score abortExceptions printDiffs penaltyInf shouldOut
        (.evalError exc seed)).wroteOutput = false ∧
    (post_score abortExceptions printDiffs penaltyInf shouldOut
        (.evalError exc seed)).exitedCode
      = (if abortExceptions then some 1 else none) ∧
    (post_score abortExceptions printDiffs penaltyInf shouldOut
        (.evalError exc seed)).retVal
      = (if abortExceptions then none else some false) := by
  refine ⟨rfl, rfl, rfl, rfl, rfl, rfl, rfl, rfl⟩

/-- C7 counterexample.  The claim says the first interrupt begins a
graceful drain, and a "stuck process" hard exit happens only when a second
interrupt arrives more than 5 seconds after the last heartbeat.  In the
code, the one and only `except KeyboardInterrupt` handler in `run` decides
immediately on the first interrupt: here a single interrupt, arriving 6
seconds after the last heartbeat (at time 16, heartbeat at 10), already
hard-exits with "Aborting stuck process." — no second interrupt exists —
and a single interrupt within 5 seconds exits the process right away
(status 0) rather than beginning any drain. -/
theorem run_single_interrupt_counterexample :
    run 0 [10] (some (1, 16)) = .abortStuck ∧
    run 0 [10] (some (1, 12)) = .exitClean := by
  constructor <;> rfl

/-- C7 amended.  `run` handles a single interrupt: if it arrives more than
5 seconds after the last heartbeat, it reports a stuck process and
hard-exits (status 1); otherwise it prints "Exiting." and exits with
status 0 immediately.  The heartbeat cell is reset on every iteration:
after `k` iterations its value is the time of the `k`-th heartbeat call
(the start time if none happened yet). -/
theorem run_interrupt_behavior (t0 : Int) (iterTimes : List Int) (k : Nat)
    (tIntr : Int) :
    run t0 iterTimes none = .completed ∧
    heartbeatLast t0 (iterTimes.take k) = (iterTimes.take k).getLastD t0 ∧
    run t0 iterTimes (some (k, tIntr)) =
      (if tIntr - (iterTimes.take k).getLastD t0 > 5 then .abortStuck
       else .exitClean) := by
  have hfold : ∀ (l : List Int) (t : Int), heartbeatLast t l = l.getLastD t := by
    intro l
    induction l with
    | nil => intro t; rfl
    | cons a l ih =>
        intro t
        simp only [heartbeatLast, List.foldl_cons, List.getLastD_cons]
        exact ih a
  refine ⟨rfl, hfold _ _, ?_⟩
  simp [run, hfold]

/-- C4 counterexample.  The claim says every `Work` event with an inactive
handle makes the server send exactly one `OutputNeedMoreWork` to the
network controller queue.  But `_send_controller` forwards a message only
`if self._net_thread:`; after a `NetThreadDisconnected` has torn the net
thread down (a reachable state, shown by the first conjunct: handling
`NetThreadDisconnected(0)` from the freshly started server empties the
active set and detaches the thread), a queued `Work(5, 1)` event — whose
handle 5 is not active — is handled with no message at all: the resulting
state is unchanged, so zero `OutputNeedMoreWork`s are sent (and nothing
goes to the evaluator). -/
theorem server_work_inactive_counterexample :
    runServer initialServer [.netThreadDisconnected 0] =
        .ok ⟨[], none, [], [.shutdownOut], []⟩ ∧
    (5 ∉ ([] : List Nat)) ∧
    handleMessage ⟨[], none, [], [.shutdownOut], []⟩ (.work 5 1) =
        .ok ⟨[], none, [], [.shutdownOut], []⟩ ∧
    SOutput.outputNeedMoreWork ∉ ([SOutput.shutdownOut] : List SOutput) :=
  ⟨rfl, by decide, rfl, by decide⟩

/-- C4 amended.  For every `Work(handle, seed)` event whose handle is not
in the active set, the server calls `_need_work` exactly once and sends
nothing else: if a net thread is attached this enqueues exactly one
`OutputNeedMoreWork` on its controller queue (if the thread has been torn
down the message is dropped), and in all cases nothing at all is sent to
the evaluator port or the io queue, and the state is otherwise unchanged. -/
theorem server_work_inactive_need_work (s : ServerState) (h seed : Nat)
    (hna : h ∉ s.active) :
    handleMessage s (.work h seed) =
      .ok { s with controllerSent := s.controllerSent ++
              if s.netThread.isSome then [.outputNeedMoreWork] else [] } := by
  obtain ⟨act, nt, ev, ctl, io⟩ := s
  cases nt <;> simp [handleMessage, needWork, sendController, hna]

/-- Witness for C4 amended, at a started server with an empty active set:
the single `OutputNeedMoreWork` lands on the controller queue. -/
theorem server_work_inactive_need_work_witness :
    handleMessage ⟨[], some 0, [], [], []⟩ (.work 5 1) =
      .ok ⟨[], some 0, [], [.outputNeedMoreWork], []⟩ := by
  have := server_work_inactive_need_work ⟨[], some 0, [], [], []⟩ 5 1 (by decide)
  simpa using this

/-- C10 counterexample.  The claim says handling `PermInitFail` for an
active handle always emits `OutputInitFail`.  As with C4, the emission goes
through `_send_controller`, which drops messages when no net thread is
attached.  The state below is reachable (first conjunct): after
`NetThreadDisconnected(0)`, a queued `AddPermuter(3)` still adds handle 3.
Handling `PermInitFail(3)` there removes the handle and emits the
`IoDisconnect` — but no `OutputInitFail` (the controller log is unchanged).
The evaluator log is also unchanged, as the claim's core asserts. -/
theorem server_permInitFail_counterexample :
    runServer initialServer
        [.netThreadDisconnected 0, .addPermuter 3 ⟨"c", "n"⟩ ⟨"f", "s", []⟩] =
      .ok ⟨[3], none, [.addJson 3 ⟨"f", "s", []⟩, .rawSource "s", .rawTarget []],
           [.shutdownOut], [(3, .ioConnect "f" ⟨"c", "n"⟩)]⟩ ∧
    (3 ∈ ([3] : List Nat)) ∧
    handleMessage
        ⟨[3], none, [.addJson 3 ⟨"f", "s", []⟩, .rawSource "s", .rawTarget []],
         [.shutdownOut], [(3, .ioConnect "f" ⟨"c", "n"⟩)]⟩
        (.permInitFail 3 "e") =
      .ok ⟨[], none, [.addJson 3 ⟨"f", "s", []⟩, .rawSource "s", .rawTarget []],
           [.shutdownOut],
           [(3, .ioConnect "f" ⟨"c", "n"⟩), (3, .ioDisconnect "failed to compile")]⟩ ∧
    SOutput.outputInitFail 3 "e" ∉ ([SOutput.shutdownOut] : List SOutput) :=
  ⟨rfl, by decide, rfl, by decide⟩

/-- C10 amended.  Handling `PermInitFail` for an active handle removes the
handle from the active set, emits `IoDisconnect("failed to compile")` on
the io queue and — when a net thread is attached — `OutputInitFail` on its
controller queue; and, unlike the `RemovePermuter`/`Disconnect` paths that
go through `_remove`, it appends nothing to the evaluator log: the
`evalSent` field of the result is exactly that of the input state. -/
theorem server_permInitFail_frame (s : ServerState) (h : Nat) (err : String)
    (hm : h ∈ s.active) :
    handleMessage s (.permInitFail h err) =
      .ok { s with active := s.active.erase h,
                   ioSent := s.ioSent ++ [(h, .ioDisconnect "failed to compile")],
                   controllerSent := s.controllerSent ++
                     if s.netThread.isSome then [.outputInitFail h err] else [] } := by
  obtain ⟨act, nt, ev, ctl, io⟩ := s
  cases nt <;> simp [handleMessage, sendIo, sendController, hm]

/-- Witness for C10 amended at a concrete state with handle 7 active and
the net thread attached. -/
theorem server_permInitFail_frame_witness :
    handleMessage ⟨[7], some 0, [], [], []⟩ (.permInitFail 7 "e") =
      .ok ⟨[], some 0, [], [.outputInitFail 7 "e"],
           [(7, .ioDisconnect "failed to compile")]⟩ := by
  have := server_permInitFail_frame ⟨[7], some 0, [], [], []⟩ 7 "e" (by decide)
  simpa using this

theorem addPending_append_addJson (h id : Nat) (d : SPermuterData)
    (log : List EvalMsg) :
    addPending h (log ++ [.addJson id d]) =
      if id = h then true else addPending h log := by
  simp [addPending, addPendingR, List.reverse_append]

theorem addPending_append_removeJson (h id : Nat) (log : List EvalMsg) :
    addPending h (log ++ [.removeJson id]) =
      if id = h then false else addPending h log := by
  simp [addPending, addPendingR, List.reverse_append]

theorem addPending_append_workJson (h id sd : Nat) (log : List EvalMsg) :
    addPending h (log ++ [.workJson id sd]) = addPending h log := by
  simp [addPending, addPendingR, List.reverse_append]

theorem addPending_append_rawSource (h : Nat) (b : String) (log : List EvalMsg) :
    addPending h (log ++ [.rawSource b]) = addPending h log := by
  simp [addPending, addPendingR, List.reverse_append]

theorem addPending_append_rawTarget (h : Nat) (b : List Nat) (log : List EvalMsg) :
    addPending h (log ++ [.rawTarget b]) = addPending h log := by
  simp [addPending, addPendingR, List.reverse_append]

theorem foldl_removeHandle_active (l : List Nat) (s : ServerState)
    (hl : s.active = l) (hnd : l.Nodup) :
    (l.foldl (fun st h => removeHandle st h) s).active = [] := by
  induction l generalizing s with
  | nil => simpa using hl
  | cons a t ih =>
      simp only [List.foldl_cons]
      apply ih
      · simp [removeHandle, hl, List.erase_cons_head]
      · exact (List.nodup_cons.mp hnd).2

theorem sendController_active (s : ServerState) (m : SOutput) :
    (sendController s m).active = s.active := by
  cases h : s.netThread <;> simp [sendController, h]

theorem sendController_evalSent (s : ServerState) (m : SOutput) :
    (sendController s m).evalSent = s.evalSent := by
  cases h : s.netThread <;> simp [sendController, h]

theorem serverInv_mono (s t : ServerState) (ha : t.active = s.active)
    (he : t.evalSent = s.evalSent) (hs : serverInv s) : serverInv t := by
  have : t.active.Nodup ∧ ∀ h ∈ t.active, addPending h t.evalSent = true := by
    rw [ha, he]; exact hs
  exact this

theorem serverInv_step (s s' : ServerState) (a : Activity)
    (hs : serverInv s) (hstep : handleMessage s a = .ok s') : serverInv s' := by
  obtain ⟨hnd, hpend⟩ := hs
  cases a with
  | shutdown =>
      simp only [handleMessage, Except.ok.injEq] at hstep
      subst hstep; exact ⟨hnd, hpend⟩
  | heartbeat =>
      simp only [handleMessage, Except.ok.injEq] at hstep
      subst hstep; exact ⟨hnd, hpend⟩
  | needMoreWork =>
      simp only [handleMessage, Except.ok.injEq] at hstep
      subst hstep
      exact serverInv_mono s _ (sendController_active s _) (sendController_evalSent s _)
        ⟨hnd, hpend⟩
  | work handle seed =>
      simp only [handleMessage] at hstep
      by_cases hm : handle ∈ s.active
      · rw [if_pos hm] at hstep
        simp only [Except.ok.injEq] at hstep
        subst hstep
        refine ⟨hnd, ?_⟩
        intro h' hm'
        show addPending h' (s.evalSent ++ [.workJson handle seed]) = true
        rw [addPending_append_workJson]
        exact hpend h' hm'
      · rw [if_neg hm] at hstep
        simp only [Except.ok.injEq] at hstep
        subst hstep
        exact serverInv_mono s _ (sendController_active s _) (sendController_evalSent s _)
          ⟨hnd, hpend⟩
  | addPermuter handle client pd =>
      simp only [handleMessage] at hstep
      by_cases hm : handle ∈ s.active
      · rw [if_pos hm] at hstep
        exact absurd hstep (by simp)
      · rw [if_neg hm] at hstep
        simp only [Except.ok.injEq] at hstep
        subst hstep
        constructor
        · show (s.active ++ [handle]).Nodup
          simp [List.nodup_append, hnd, hm]
        · intro h' hm'
          have hm2 : h' ∈ s.active ++ [handle] := hm'
          show addPending h'
            (s.evalSent ++ [.addJson handle pd, .rawSource pd.source,
              .rawTarget pd.targetOBin]) = true
          have hsplit : s.evalSent ++ [EvalMsg.addJson handle pd,
              .rawSource pd.source, .rawTarget pd.targetOBin]
              = ((s.evalSent ++ [.addJson handle pd]) ++ [.rawSource pd.source])
                  ++ [.rawTarget pd.targetOBin] := by simp
          rw [hsplit, addPending_append_rawTarget, addPending_append_rawSource,
            addPending_append_addJson]
          rcases List.mem_append.mp hm2 with hin | hin
          · have hne : handle ≠ h' := fun he => hm (he ▸ hin)
            rw [if_neg hne]
            exact hpend h' hin
          · have heq : h' = handle := by simpa using hin
            rw [if_pos heq.symm]
  | removePermuter handle =>
      simp only [handleMessage] at hstep
      by_cases hm : handle ∈ s.active
      · rw [if_pos hm] at hstep
        simp only [Except.ok.injEq] at hstep
        subst hstep
        refine ⟨hnd.erase _, ?_⟩
        intro h' hm'
        have hm2 : h' ∈ s.active.erase handle := hm'
        rw [List.Nodup.mem_erase_iff hnd] at hm2
        show addPending h' (s.evalSent ++ [.removeJson handle]) = true
        rw [addPending_append_removeJson, if_neg (fun he => hm2.1 he.symm)]
        exact hpend h' hm2.2
      · rw [if_neg hm] at hstep
        simp only [Except.ok.injEq] at hstep
        subst hstep; exact ⟨hnd, hpend⟩
  | disconnect handle =>
      simp only [handleMessage] at hstep
      by_cases hm : handle ∈ s.active
      · rw [if_pos hm] at hstep
        simp only [Except.ok.injEq] at hstep
        subst hstep
        apply serverInv_mono _ _ (sendController_active _ _) (sendController_evalSent _ _)
        refine ⟨hnd.erase _, ?_⟩
        intro h' hm'
        have hm2 : h' ∈ s.active.erase handle := hm'
        rw [List.Nodup.mem_erase_iff hnd] at hm2
        show addPending h' (s.evalSent ++ [.removeJson handle]) = true
        rw [addPending_append_removeJson, if_neg (fun he => hm2.1 he.symm)]
        exact hpend h' hm2.2
      · rw [if_neg hm] at hstep
        simp only [Except.ok.injEq] at hstep
        subst hstep; exact ⟨hnd, hpend⟩
  | immediateDisconnect handle client reason =>
      simp only [handleMessage] at hstep
      by_cases hm : handle ∈ s.active
      · rw [if_pos hm] at hstep
        exact absurd hstep (by simp)
      · rw [if_neg hm] at hstep
        simp only [Except.ok.injEq] at hstep
        subst hstep
        exact serverInv_mono s _ (sendController_active _ _) (sendController_evalSent _ _)
          ⟨hnd, hpend⟩
  | permInitFail permId err =>
      simp only [handleMessage] at hstep
      by_cases hm : permId ∈ s.active
      · rw [if_pos hm] at hstep
        simp only [Except.ok.injEq] at hstep
        subst hstep
        apply serverInv_mono _ _ (sendController_active _ _) (sendController_evalSent _ _)
        refine ⟨hnd.erase _, ?_⟩
        intro h' hm'
        have hm2 : h' ∈ s.active.erase permId := hm'
        show addPending h' s.evalSent = true
        exact hpend h' (List.mem_of_mem_erase hm2)
      · rw [if_neg hm] at hstep
        simp only [Except.ok.injEq] at hstep
        subst hstep
        exact serverInv_mono s _ (sendController_active _ _) (sendController_evalSent _ _)
          ⟨hnd, hpend⟩
  | permInitSuccess permId baseScore baseHash timeUs =>
      simp only [handleMessage] at hstep
      by_cases hm : permId ∈ s.active
      · rw [if_pos hm] at hstep
        simp only [Except.ok.injEq] at hstep
        subst hstep
        exact serverInv_mono s _ (sendController_active _ _) (sendController_evalSent _ _)
          ⟨hnd, hpend⟩
      · rw [if_neg hm] at hstep
        simp only [Except.ok.injEq] at hstep
        subst hstep
        exact serverInv_mono s _ (sendController_active _ _) (sendController_evalSent _ _)
          ⟨hnd, hpend⟩
  | workDone permId obj timeUs cs =>
      simp only [handleMessage] at hstep
      by_cases hm : permId ∈ s.active
      · rw [if_pos hm] at hstep
        simp only [Except.ok.injEq] at hstep
        subst hstep
        exact serverInv_mono s _ (sendController_active _ _) (sendController_evalSent _ _)
          ⟨hnd, hpend⟩
      · rw [if_neg hm] at hstep
        simp only [Except.ok.injEq] at hstep
        subst hstep
        exact serverInv_mono s _ (sendController_active _ _) (sendController_evalSent _ _)
          ⟨hnd, hpend⟩
  | netThreadDisconnected tid =>
      obtain ⟨act, nt, ev, ctl, io⟩ := s
      cases nt with
      | none =>
          simp only [handleMessage, Except.ok.injEq] at hstep
          subst hstep; exact ⟨hnd, hpend⟩
      | some cur =>
          simp only [handleMessage] at hstep
          by_cases htid : tid = cur
          · rw [if_neg (not_not_intro htid)] at hstep
            simp only [Except.ok.injEq] at hstep
            subst hstep
            have hempty := foldl_removeHandle_active act ⟨act, some cur, ev, ctl, io⟩ rfl hnd
            constructor
            · show (List.foldl (fun st h => removeHandle st h)
                  ⟨act, some cur, ev, ctl, io⟩ act).active.Nodup
              rw [hempty]; exact List.nodup_nil
            · intro h' hm'
              have hmem : h' ∈ (List.foldl (fun st h => removeHandle st h)
                  ⟨act, some cur, ev, ctl, io⟩ act).active := hm'
              rw [hempty] at hmem
              exact absurd hmem (by simp)
          · rw [if_pos htid] at hstep
            simp only [Except.ok.injEq] at hstep
            subst hstep; exact ⟨hnd, hpend⟩

theorem runServer_inv (events : List Activity) (s : ServerState) :
    ∀ s0 : ServerState, serverInv s0 → runServer s0 events = .ok s → serverInv s := by
  induction events with
  | nil =>
      intro s0 h0 hrun
      simp only [runServer, Except.ok.injEq] at hrun
      exact hrun ▸ h0
  | cons a rest ih =>
      intro s0 h0 hrun
      cases a
      all_goals simp only [runServer, Except.ok.injEq] at hrun
      case shutdown => exact hrun ▸ h0
      all_goals (
        split at hrun
        · exact absurd hrun (by simp)
        · rename_i s1 heq
          exact ih s1 (serverInv_step s0 s1 _ h0 heq) hrun)

/-- C8.  In every server state reachable by handling any sequence of
`Activity` events from the started server: every handle in the active set
has had its `add` message (the `{"type":"add","id":str(h),...}` frame plus
its two raw frames) sent to the evaluator, with no
`{"type":"remove","id":str(h)}` sent since that add — `addPending` states
exactly this about the evaluator send log. -/
theorem server_active_handles_have_pending_add (events : List Activity)
    (s : ServerState) (hrun : runServer initialServer events = .ok s) :
    ∀ h ∈ s.active, addPending h s.evalSent = true :=
  (runServer_inv events s initialServer
    ⟨List.nodup_nil, by intro h hm; exact absurd hm (by simp [initialServer])⟩ hrun).2

/-- Witness for C8 on a concrete run: after adding permuter 1 and handling
one `Work` for it, handle 1 is active and its add is pending in the
evaluator log. -/
theorem server_active_handles_witness :
    addPending 1 [.addJson 1 ⟨"f", "s", []⟩, .rawSource "s", .rawTarget [],
      .workJson 1 5] = true :=
  server_active_handles_have_pending_add
    [.addPermuter 1 ⟨"c", "n"⟩ ⟨"f", "s", []⟩, .work 1 5]
    ⟨[1], some 0,
     [.addJson 1 ⟨"f", "s", []⟩, .rawSource "s", .rawTarget [], .workJson 1 5],
     [], [(1, .ioConnect "f" ⟨"c", "n"⟩)]⟩
    rfl 1 (by decide)

theorem findOutputCtr_some (existing : List String) (permDir : String)
    (score : Int) :
    ∀ (fuel ctr c : Nat),
      findOutputCtr existing permDir score ctr fuel = some c →
      ctr < c ∧ outputDirName permDir score c ∉ existing ∧
        ∀ j, ctr < j → j < c → outputDirName permDir score j ∈ existing := by
  intro fuel
  induction fuel with
  | zero => intro ctr c h; exact absurd h (by simp [findOutputCtr])
  | succ fuel ih =>
      intro ctr c h
      rw [findOutputCtr] at h
      by_cases hmem : outputDirName permDir score (ctr + 1) ∈ existing
      · rw [if_pos hmem] at h
        obtain ⟨hlt, hfresh, hbetween⟩ := ih (ctr + 1) c h
        refine ⟨by omega, hfresh, ?_⟩
        intro j hj1 hj2
        rcases Nat.lt_or_ge (ctr + 1) j with hgt | hle
        · exact hbetween j hgt hj2
        · have : j = ctr + 1 := by omega
          exact this ▸ hmem
      · rw [if_neg hmem] at h
        simp only [Option.some.injEq] at h
        subst h
        exact ⟨Nat.lt_succ_self ctr, hmem, fun j hj1 hj2 => by omega⟩

theorem findOutputCtr_none (existing : List String) (permDir : String)
    (score : Int) :
    ∀ (fuel ctr : Nat),
      findOutputCtr existing permDir score ctr fuel = none →
      ∀ d, d < fuel → outputDirName permDir score (ctr + 1 + d) ∈ existing := by
  intro fuel
  induction fuel with
  | zero => intro ctr h d hd; omega
  | succ fuel ih =>
      intro ctr h d hd
      rw [findOutputCtr] at h
      by_cases hmem : outputDirName permDir score (ctr + 1) ∈ existing
      · rw [if_pos hmem] at h
        cases d with
        | zero => simpa using hmem
        | succ d' =>
            have := ih (ctr + 1) h d' (by omega)
            have harith : ctr + 1 + 1 + d' = ctr + 1 + (d' + 1) := by omega
            rwa [harith] at this
      · rw [if_neg hmem] at h
        exact absurd h (by simp)

/-- C9.  `write_candidate` produces a collision-free output directory: the
retry loop always succeeds (first conjunct; the attempted names being
pairwise distinct, `existing.length + 1` candidates cannot all collide —
distinctness of `output-{score}-{ctr}` over the attempted `ctr` range is
the hypothesis `hinj`, true of decimal numerals), and the counter value it
stops at is the first `ctr ≥ 1` whose directory name does not already
exist, so no existing directory is reused or overwritten. -/
theorem write_candidate_collision_free (existing : List String)
    (permDir : String) (score : Int)
    (hinj : ∀ i j, 1 ≤ i → i ≤ existing.length + 1 → 1 ≤ j →
      j ≤ existing.length + 1 →
      outputDirName permDir score i = outputDirName permDir score j → i = j) :
    (write_candidate existing permDir score).isSome = true ∧
    ∀ c, write_candidate existing permDir score = some c →
      1 ≤ c ∧ outputDirName permDir score c ∉ existing ∧
        ∀ j, 1 ≤ j → j < c → outputDirName permDir score j ∈ existing := by
  constructor
  · rw [write_candidate]
    cases hfind : findOutputCtr existing permDir score 0 (existing.length + 1) with
    | some c => rfl
    | none =>
        exfalso
        set K := existing.length + 1 with hK
        have hall : ∀ d, d < K → outputDirName permDir score (1 + d) ∈ existing := by
          intro d hd
          simpa using findOutputCtr_none existing permDir score K 0 hfind d hd
        have hsub : (Finset.Icc 1 K).image (fun i => outputDirName permDir score i)
            ⊆ existing.toFinset := by
          intro x hx
          obtain ⟨i, hi, rfl⟩ := Finset.mem_image.mp hx
          obtain ⟨hi1, hi2⟩ := Finset.mem_Icc.mp hi
          have := hall (i - 1) (by omega)
          have harith : 1 + (i - 1) = i := by omega
          rw [harith] at this
          exact List.mem_toFinset.mpr this
        have hcard : ((Finset.Icc 1 K).image
            (fun i => outputDirName permDir score i)).card = K := by
          rw [Finset.card_image_of_injOn, Nat.card_Icc]
          · omega
          · intro i hi j hj heq
            obtain ⟨hi1, hi2⟩ := Finset.mem_Icc.mp hi
            obtain ⟨hj1, hj2⟩ := Finset.mem_Icc.mp hj
            exact hinj i j hi1 hi2 hj1 hj2 heq
        have hle := Finset.card_le_card hsub
        have hlen := List.toFinset_card_le existing
        omega
  · intro c hc
    rw [write_candidate] at hc
    obtain ⟨hlt, hfresh, hbetween⟩ :=
      findOutputCtr_some existing permDir score (existing.length + 1) 0 c hc
    exact ⟨hlt, hfresh, fun j hj1 hj2 => hbetween j hj1 hj2⟩

/-- Witness for C9 on the empty directory: the first attempt, `ctr = 1`,
succeeds. -/
theorem write_candidate_collision_free_witness :
    (write_candidate [] "d" 7).isSome = true :=
  (write_candidate_collision_free [] "d" 7
    (by intro i j h1 h2 h3 h4 _; simp only [List.length_nil] at h2 h4; omega)).1

theorem signalFinished_eq (n : Nat) :
    signalFinished n = List.replicate n (.finished none) := by
  induction n with
  | zero => rfl
  | succ n ih => rw [signalFinished, ih, ← List.replicate_succ']

theorem countFin_nil : countFin [] = 0 := rfl

theorem countFin_cons_finished (r : Option String) (l : List CFeedback) :
    countFin (.finished r :: l) = countFin l + 1 := by
  simp [countFin, List.countP_cons]

theorem countFin_cons_message (t : String) (l : List CFeedback) :
    countFin (.message t :: l) = countFin l := by
  simp [countFin, List.countP_cons]

theorem countFin_cons_needMoreWork (l : List CFeedback) :
    countFin (.needMoreWork :: l) = countFin l := by
  simp [countFin, List.countP_cons]

theorem countFin_cons_workDone (i : Nat) (z : Bool) (l : List CFeedback) :
    countFin (.workDone i z :: l) = countFin l := by
  simp [countFin, List.countP_cons]

theorem wdFlags_cons_finished (r : Option String) (l : List CFeedback) :
    wdFlags (.finished r :: l) = wdFlags l := by
  simp [wdFlags]

theorem wdFlags_cons_message (t : String) (l : List CFeedback) :
    wdFlags (.message t :: l) = wdFlags l := by
  simp [wdFlags]

theorem wdFlags_cons_needMoreWork (l : List CFeedback) :
    wdFlags (.needMoreWork :: l) = wdFlags l := by
  simp [wdFlags]

theorem wdFlags_cons_workDone (i : Nat) (z : Bool) (l : List CFeedback) :
    wdFlags (.workDone i z :: l) = z :: wdFlags l := by
  simp [wdFlags]

theorem drainLoop_spec (stopOnZero : Bool) :
    ∀ (fbs : List CFeedback) (n : Nat) (fz : Bool), n ≤ countFin fbs →
      (drainLoop stopOnZero n fz fbs).finishedSeen = n ∧
      countFin (fbs.take (drainLoop stopOnZero n fz fbs).consumed) = n ∧
      (∀ m, m < (drainLoop stopOnZero n fz fbs).consumed →
        countFin (fbs.take m) < n) ∧
      (drainLoop stopOnZero n fz fbs).scored =
        scoredSpec stopOnZero fz
          (wdFlags (fbs.take (drainLoop stopOnZero n fz fbs).consumed)) := by
  intro fbs
  induction fbs with
  | nil =>
      intro n fz hn
      have hn0 : n = 0 := by
        rw [countFin_nil] at hn
        omega
      subst hn0
      refine ⟨rfl, rfl, ?_, ?_⟩
      · intro m hm
        simp [drainLoop] at hm
      · simp [drainLoop, scoredSpec, wdFlags, takeThroughFirstTrue]
  | cons fb rest ih =>
      intro n fz hn
      cases n with
      | zero =>
          refine ⟨rfl, rfl, ?_, ?_⟩
          · intro m hm
            simp [drainLoop] at hm
          · simp [drainLoop, scoredSpec, wdFlags, takeThroughFirstTrue]
      | succ active =>
          cases fb with
          | finished r =>
              have hn' : active ≤ countFin rest := by
                rw [countFin_cons_finished] at hn
                omega
              obtain ⟨ih1, ih2, ih3, ih4⟩ := ih active fz hn'
              refine ⟨?_, ?_, ?_, ?_⟩
              · simp [drainLoop, ih1]
              · simp only [drainLoop, List.take_succ_cons, countFin_cons_finished, ih2]
              · intro m hm
                cases m with
                | zero =>
                    simp only [List.take_zero, countFin_nil]
                    omega
                | succ m' =>
                    simp only [drainLoop] at hm
                    have h3 := ih3 m' (Nat.lt_of_succ_lt_succ hm)
                    simp only [List.take_succ_cons, countFin_cons_finished]
                    omega
              · simp only [drainLoop, List.take_succ_cons, wdFlags_cons_finished]
                exact ih4
          | message t =>
              have hn' : active + 1 ≤ countFin rest := by
                rwa [countFin_cons_message] at hn
              obtain ⟨ih1, ih2, ih3, ih4⟩ := ih (active + 1) fz hn'
              refine ⟨?_, ?_, ?_, ?_⟩
              · simp [drainLoop, ih1]
              · simp only [drainLoop, List.take_succ_cons, countFin_cons_message, ih2]
              · intro m hm
                cases m with
                | zero =>
                    simp only [List.take_zero, countFin_nil]
                    omega
                | succ m' =>
                    simp only [drainLoop] at hm
                    have h3 := ih3 m' (Nat.lt_of_succ_lt_succ hm)
                    simp only [List.take_succ_cons, countFin_cons_message]
                    omega
              · simp only [drainLoop, List.take_succ_cons, wdFlags_cons_message]
                exact ih4
          | needMoreWork =>
              have hn' : active + 1 ≤ countFin rest := by
                rwa [countFin_cons_needMoreWork] at hn
              obtain ⟨ih1, ih2, ih3, ih4⟩ := ih (active + 1) fz hn'
              refine ⟨?_, ?_, ?_, ?_⟩
              · simp [drainLoop, ih1]
              · simp only [drainLoop, List.take_succ_cons, countFin_cons_needMoreWork,
                  ih2]
              · intro m hm
                cases m with
                | zero =>
                    simp only [List.take_zero, countFin_nil]
                    omega
                | succ m' =>
                    simp only [drainLoop] at hm
                    have h3 := ih3 m' (Nat.lt_of_succ_lt_succ hm)
                    simp only [List.take_succ_cons, countFin_cons_needMoreWork]
                    omega
              · simp only [drainLoop, List.take_succ_cons, wdFlags_cons_needMoreWork]
                exact ih4
          | workDone i z =>
              have hn' : active + 1 ≤ countFin rest := by
                rwa [countFin_cons_workDone] at hn
              by_cases hskip : (stopOnZero && fz) = true
              · obtain ⟨ih1, ih2, ih3, ih4⟩ := ih (active + 1) fz hn'
                refine ⟨?_, ?_, ?_, ?_⟩
                · simp [drainLoop, hskip, ih1]
                · simp only [drainLoop, hskip, if_true, List.take_succ_cons,
                    countFin_cons_workDone, ih2]
                · intro m hm
                  cases m with
                  | zero =>
                      simp only [List.take_zero, countFin_nil]
                      omega
                  | succ m' =>
                      simp only [drainLoop, hskip, if_true] at hm
                      have h3 := ih3 m' (Nat.lt_of_succ_lt_succ hm)
                      simp only [List.take_succ_cons, countFin_cons_workDone]
                      omega
                · obtain ⟨hsz, hfz⟩ := Bool.and_eq_true_iff.mp hskip
                  subst hsz
                  subst hfz
                  simp [scoredSpec] at ih4
                  simp [drainLoop, scoredSpec, ih4]
              · have hskip' : (stopOnZero && fz) = false := by
                  rwa [Bool.not_eq_true] at hskip
                obtain ⟨ih1, ih2, ih3, ih4⟩ := ih (active + 1) (fz || z) hn'
                refine ⟨?_, ?_, ?_, ?_⟩
                · simp [drainLoop, hskip', ih1]
                · simp [drainLoop, hskip', List.take_succ_cons,
                    countFin_cons_workDone, ih2]
                · intro m hm
                  cases m with
                  | zero =>
                      simp only [List.take_zero, countFin_nil]
                      omega
                  | succ m' =>
                      simp [drainLoop, hskip'] at hm
                      have h3 := ih3 m' (by omega)
                      simp [List.take_succ_cons, countFin_cons_workDone]
                      omega
                · rcases Bool.and_eq_false_iff.mp hskip' with hsz | hfz
                  · subst hsz
                    simp [scoredSpec] at ih4
                    simp [drainLoop, scoredSpec, List.take_succ_cons,
                      wdFlags_cons_workDone, ih4]
                    try rfl
                  · subst hfz
                    cases stopOnZero with
                    | false =>
                        simp [scoredSpec] at ih4
                        simp [drainLoop, scoredSpec, List.take_succ_cons,
                          wdFlags_cons_workDone, ih4]
                        try rfl
                    | true =>
                        cases z with
                        | true =>
                            simp [scoredSpec] at ih4
                            simp [drainLoop, scoredSpec, List.take_succ_cons,
                              wdFlags_cons_workDone, takeThroughFirstTrue, ih4]
                            try rfl
                        | false =>
                            simp [scoredSpec] at ih4
                            simp [drainLoop, scoredSpec, List.take_succ_cons,
                              wdFlags_cons_workDone, takeThroughFirstTrue, ih4]
                            try rfl

/-- C3.  When the coordinator main loop leaves the feeding state, it
enqueues exactly one `Finished` task per currently active worker (the
signalling loop produces exactly `activeWorkers` sentinels), then keeps
consuming feedback until a `Finished` has been received for every active
worker: provided the feedback stream carries enough `Finished`s, the drain
sees exactly `activeWorkers` of them, its consumed prefix contains exactly
that many and no proper prefix does.  Every `WorkDone` received during the
drain is still passed to `post_score` unless `stop_on_zero` is set and a
zero score was already found (either before the drain, `fz`, or earlier in
the drain): the scored flags equal `scoredSpec` of the consumed prefix's
`WorkDone` flags — all of them when `stop_on_zero` is off, none when a zero
was locked in before the drain, and everything up to and including the
first zero otherwise. -/
theorem run_inner_drain (stopOnZero : Bool) (activeWorkers : Nat) (fz : Bool)
    (fbs : List CFeedback) (henough : activeWorkers ≤ countFin fbs) :
    signalFinished activeWorkers = List.replicate activeWorkers (.finished none) ∧
    (drainLoop stopOnZero activeWorkers fz fbs).finishedSeen = activeWorkers ∧
    countFin (fbs.take (drainLoop stopOnZero activeWorkers fz fbs).consumed)
      = activeWorkers ∧
    (∀ m, m < (drainLoop stopOnZero activeWorkers fz fbs).consumed →
      countFin (fbs.take m) < activeWorkers) ∧
    (drainLoop stopOnZero activeWorkers fz fbs).scored =
      scoredSpec stopOnZero fz
        (wdFlags (fbs.take (drainLoop stopOnZero activeWorkers fz fbs).consumed)) := by
  obtain ⟨h1, h2, h3, h4⟩ := drainLoop_spec stopOnZero fbs activeWorkers fz henough
  exact ⟨signalFinished_eq activeWorkers, h1, h2, h3, h4⟩

/-- Witness for C3 with 2 active workers, `stop_on_zero` set, and a zero
found on the first drained `WorkDone`: the drain still sees both
`Finished`s. -/
theorem run_inner_drain_witness :
    (drainLoop true 2 false
      [.workDone 0 true, .workDone 1 false, .finished none, .finished none]).finishedSeen
      = 2 :=
  (run_inner_drain true 2 false
    [.workDone 0 true, .workDone 1 false, .finished none, .finished none]
    (by decide)).2.1

theorem cycleSeedsAux_yield (f : Nat) (its : List (Nat × List Nat)) (i : Int)
    (hne : its ≠ []) (ind x : Nat) (xs : List Nat)
    (hget : its.getD ((i % (its.length : Int)).toNat) (0, []) = (ind, x :: xs)) :
    cycleSeedsAux (f + 1) its i =
      (ind, x) :: cycleSeedsAux f
        (its.set ((i % (its.length : Int)).toNat) (ind, xs))
        ((((i % (its.length : Int)).toNat : Nat) : Int) + 1) := by
  have hemp : its.isEmpty = false := by
    cases its with
    | nil => exact absurd rfl hne
    | cons a l => rfl
  rw [cycleSeedsAux, hemp]
  simp only []
  rw [hget]
  simp

theorem cycleSeedsAux_del (f : Nat) (its : List (Nat × List Nat)) (i : Int)
    (hne : its ≠ []) (ind : Nat)
    (hget : its.getD ((i % (its.length : Int)).toNat) (0, []) = (ind, [])) :
    cycleSeedsAux (f + 1) its i =
      cycleSeedsAux f (its.eraseIdx ((i % (its.length : Int)).toNat))
        ((((i % (its.length : Int)).toNat : Nat) : Int) - 1) := by
  have hemp : its.isEmpty = false := by
    cases its with
    | nil => exact absurd rfl hne
    | cons a l => rfl
  rw [cycleSeedsAux, hemp]
  simp only []
  rw [hget]
  simp

theorem cycleSeedsAux_nil (f : Nat) (i : Int) : cycleSeedsAux f [] i = [] := by
  cases f <;> rfl

theorem iterMeasure_cons (a : Nat × List Nat) (l : List (Nat × List Nat)) :
    iterMeasure (a :: l) = (a.2.length + 1) + iterMeasure l := by
  simp [iterMeasure]

theorem iterMeasure_eraseIdx : ∀ (its : List (Nat × List Nat)) (j : Nat),
    j < its.length → iterMeasure (its.eraseIdx j) < iterMeasure its := by
  intro its
  induction its with
  | nil => intro j h; simp at h
  | cons a l ih =>
      intro j h
      cases j with
      | zero =>
          simp only [List.eraseIdx, iterMeasure_cons]
          omega
      | succ j' =>
          simp only [List.eraseIdx, iterMeasure_cons]
          have := ih j' (by simpa using h)
          omega

theorem iterMeasure_set : ∀ (its : List (Nat × List Nat)) (j ind x : Nat)
    (xs : List Nat), its.getD j (0, []) = (ind, x :: xs) → j < its.length →
    iterMeasure (its.set j (ind, xs)) < iterMeasure its := by
  intro its
  induction its with
  | nil => intro j ind x xs hget h; simp at h
  | cons a l ih =>
      intro j ind x xs hget h
      cases j with
      | zero =>
          simp only [List.getD_cons_zero] at hget
          simp only [List.set, iterMeasure_cons, hget, List.length_cons]
          omega
      | succ j' =>
          simp only [List.getD_cons_succ] at hget
          simp only [List.set, iterMeasure_cons]
          have := ih j' ind x xs hget (by simpa using h)
          omega

theorem cycleSeedsAux_fuel : ∀ (f1 f2 : Nat) (its : List (Nat × List Nat)) (i : Int),
    iterMeasure its < f1 → iterMeasure its < f2 →
    cycleSeedsAux f1 its i = cycleSeedsAux f2 its i := by
  intro f1
  induction f1 with
  | zero => intro f2 its i h1 h2; omega
  | succ f1 ih =>
      intro f2 its i h1 h2
      cases its with
      | nil => rw [cycleSeedsAux_nil, cycleSeedsAux_nil]
      | cons a l =>
          obtain ⟨g, rfl⟩ : ∃ g, f2 = g + 1 := ⟨f2 - 1, by omega⟩
          have hne : (a :: l) ≠ [] := by simp
          have hlenpos : (0 : Int) < (((a :: l).length : Nat) : Int) := by
            simp only [List.length_cons]
            omega
          have hj : ((i % (((a :: l).length : Nat) : Int)).toNat) < (a :: l).length := by
            have hnn : 0 ≤ i % (((a :: l).length : Nat) : Int) :=
              Int.emod_nonneg i (by omega)
            have hlt : i % (((a :: l).length : Nat) : Int) < ((a :: l).length : Int) :=
              Int.emod_lt_of_pos i hlenpos
            omega
          rcases hget : (a :: l).getD ((i % (((a :: l).length : Nat) : Int)).toNat) (0, [])
            with ⟨ind, ll⟩
          cases ll with
          | nil =>
              rw [cycleSeedsAux_del f1 _ i hne ind hget,
                cycleSeedsAux_del g _ i hne ind hget]
              have hm := iterMeasure_eraseIdx (a :: l) _ hj
              exact ih g _ _ (by omega) (by omega)
          | cons x xs =>
              rw [cycleSeedsAux_yield f1 _ i hne ind x xs hget,
                cycleSeedsAux_yield g _ i hne ind x xs hget]
              have hm := iterMeasure_set (a :: l) _ ind x xs hget hj
              rw [ih g _ _ (by omega) (by omega)]

theorem cycleSeedsAux_congr_mod (f : Nat) (its : List (Nat × List Nat)) (i1 i2 : Int)
    (h : i1 % (its.length : Int) = i2 % (its.length : Int)) :
    cycleSeedsAux f its i1 = cycleSeedsAux f its i2 := by
  cases f with
  | zero => rfl
  | succ f =>
      cases its with
      | nil => rw [cycleSeedsAux_nil, cycleSeedsAux_nil]
      | cons a l =>
          rw [cycleSeedsAux, cycleSeedsAux]
          simp only [h]

theorem cycleSeedsAux_all_nil : ∀ (f : Nat) (its : List (Nat × List Nat)) (i : Int),
    (∀ p ∈ its, p.2 = []) → iterMeasure its < f → cycleSeedsAux f its i = [] := by
  intro f
  induction f with
  | zero => intro its i _ _; rfl
  | succ f ih =>
      intro its i hall hm
      cases its with
      | nil => rw [cycleSeedsAux_nil]
      | cons a l =>
          have hne : (a :: l) ≠ [] := by simp
          have hlenpos : (0 : Int) < (((a :: l).length : Nat) : Int) := by
            simp only [List.length_cons]
            omega
          have hj : ((i % (((a :: l).length : Nat) : Int)).toNat) < (a :: l).length := by
            have hnn : 0 ≤ i % (((a :: l).length : Nat) : Int) :=
              Int.emod_nonneg i (by omega)
            have hlt : i % (((a :: l).length : Nat) : Int) < ((a :: l).length : Int) :=
              Int.emod_lt_of_pos i hlenpos
            omega
          rcases hget : (a :: l).getD ((i % (((a :: l).length : Nat) : Int)).toNat) (0, [])
            with ⟨ind, ll⟩
          have hgetelem := List.getD_eq_getElem (a :: l) (0, []) hj
          have hmem : (a :: l)[(i % (((a :: l).length : Nat) : Int)).toNat] ∈ a :: l :=
            List.getElem_mem _
          have hll : ll = [] := by
            have := hall _ hmem
            rw [hgetelem] at hget
            rw [hget] at this
            exact this
          subst hll
          rw [cycleSeedsAux_del f _ i hne ind hget]
          apply ih
          · intro p hp
            exact hall p ((List.eraseIdx_sublist _ _).mem hp)
          · have := iterMeasure_eraseIdx (a :: l) _ hj
            omega

theorem cycleSeedsAux_round : ∀ (d f : Nat) (its : List (Nat × List Nat)) (j : Nat),
    its.length = j + d →
    (∀ p ∈ its.drop j, p.2 ≠ []) →
    iterMeasure its < f →
    cycleSeedsAux f its (j : Int) =
      ((its.drop j).map (fun p => (p.1, p.2.headD 0))) ++
        cycleSeedsAux (f - d)
          (its.take j ++ (its.drop j).map (fun p => (p.1, p.2.tail)))
          ((its.length : Nat) : Int) := by
  intro d
  induction d with
  | zero =>
      intro f its j hlen hne hf
      have hj : j = its.length := by omega
      subst hj
      simp [List.drop_length, List.take_length]
  | succ d ihd =>
      intro f its j hlen hne hf
      have hjlt : j < its.length := by omega
      have hget0 : its.getD j (0, []) = its[j] := List.getD_eq_getElem its (0, []) hjlt
      have hdropc : its.drop j = its[j] :: its.drop (j + 1) := List.drop_eq_getElem_cons hjlt
      have hmem : its[j] ∈ its.drop j := by
        rw [hdropc]
        exact List.mem_cons_self _ _
      have hne_j : (its[j]).2 ≠ [] := hne _ hmem
      rcases hx : its[j] with ⟨ind, ll⟩
      cases ll with
      | nil =>
          rw [hx] at hne_j
          exact absurd rfl hne_j
      | cons x xs =>
          have hmod : (((j : Int)) % ((its.length : Nat) : Int)).toNat = j := by
            rw [Int.emod_eq_of_lt (Int.natCast_nonneg j) (by exact_mod_cast hjlt)]
            exact Int.toNat_natCast j
          obtain ⟨f', rfl⟩ : ∃ f', f = f' + 1 := ⟨f - 1, by omega⟩
          have hne_its : its ≠ [] := by
            intro h
            rw [h] at hjlt
            simp at hjlt
          have hgetj : its.getD (((j : Int) % ((its.length : Nat) : Int)).toNat) (0, [])
              = (ind, x :: xs) := by
            rw [hmod, hget0, hx]
          rw [cycleSeedsAux_yield f' its (j : Int) hne_its ind x xs hgetj, hmod]
          have hcast : ((j : Int) + 1) = (((j + 1 : Nat) : Nat) : Int) := by
            push_cast
            ring
          rw [hcast]
          have hlen' : (its.set j (ind, xs)).length = (j + 1) + d := by
            rw [List.length_set]
            omega
          have hdropset : (its.set j (ind, xs)).drop (j + 1) = its.drop (j + 1) := by
            rw [List.drop_set]
            simp
          have hne' : ∀ p ∈ (its.set j (ind, xs)).drop (j + 1), p.2 ≠ [] := by
            intro p hp
            rw [hdropset] at hp
            apply hne
            rw [hdropc]
            exact List.mem_cons_of_mem _ hp
          have hm' : iterMeasure (its.set j (ind, xs)) < f' := by
            have := iterMeasure_set its j ind x xs (by rw [hget0, hx]) hjlt
            omega
          rw [ihd f' (its.set j (ind, xs)) (j + 1) hlen' hne' hm']
          have htakeset : (its.set j (ind, xs)).take (j + 1)
              = its.take j ++ [(ind, xs)] := by
            rw [List.set_eq_take_cons_drop (ind, xs) hjlt, List.take_append_eq_append_take]
            have hlt : (its.take j).length = j := by
              rw [List.length_take]
              omega
            rw [hlt, List.take_take]
            have hmin : min (j + 1) j = j := by omega
            have hsub : j + 1 - j = 1 := by omega
            rw [hmin, hsub]
            simp
          have hfuel : f' + 1 - (d + 1) = f' - d := by omega
          rw [htakeset, hdropset, hdropc, hfuel]
          simp only [List.map_cons, hx, List.length_set]
          simp [List.append_assoc]

theorem enumFrom_map_tail : ∀ (l : List (List Nat)) (k : Nat),
    (List.enumFrom k l).map (fun p => (p.1, p.2.tail)) =
      List.enumFrom k (l.map (fun s => s.tail)) := by
  intro l
  induction l with
  | nil => intro k; rfl
  | cons a t ih => intro k; simp only [List.enumFrom_cons, List.map_cons, ih]

theorem enum_map_tail (l : List (List Nat)) :
    (l.enum).map (fun p => (p.1, p.2.tail)) = (l.map (fun s => s.tail)).enum :=
  enumFrom_map_tail l 0

theorem snd_mem_of_mem_enumFrom : ∀ (l : List (List Nat)) (k : Nat) (p : Nat × List Nat),
    p ∈ List.enumFrom k l → p.2 ∈ l := by
  intro l
  induction l with
  | nil => intro k p hp; simp [List.enumFrom] at hp
  | cons a t ih =>
      intro k p hp
      rw [List.enumFrom_cons] at hp
      rcases List.mem_cons.mp hp with h | h
      · rw [h]
        exact List.mem_cons_self _ _
      · exact List.mem_cons_of_mem _ (ih (k + 1) p h)

theorem iterMeasure_enumFrom_const : ∀ (l : List (List Nat)) (k c : Nat),
    (∀ p ∈ l, p.length = c) →
    iterMeasure (List.enumFrom k l) = l.length * (c + 1) := by
  intro l
  induction l with
  | nil => intro k c _; simp [iterMeasure]
  | cons a t ih =>
      intro k c hc
      rw [List.enumFrom_cons, iterMeasure_cons,
        ih (k + 1) c (fun p hp => hc p (List.mem_cons_of_mem _ hp)),
        hc a (List.mem_cons_self _ _)]
      simp [List.length_cons]
      ring

/-- C1 counterexample.  The claimed fairness guarantee fails once an
iterator exhausts: on seed lists `[[10], [20,21,22], [30,31,32]]` the
stream is `(0,10), (1,20), (2,30), (2,31), (1,21), (2,32), (1,22)` — after
permuter 0's single-seed iterator is deleted, `i -= 1` steps the rotation
back, so permuter 2 yields at positions 2 and 3 with no yield in between
while permuter 1 (still live: it yields again at position 4) yields zero
times, not once, inside that window. -/
theorem cycle_seeds_fairness_counterexample :
    cycle_seeds [[10], [20, 21, 22], [30, 31, 32]] =
      [(0, 10), (1, 20), (2, 30), (2, 31), (1, 21), (2, 32), (1, 22)] ∧
    ¬ fairRoundRobin (cycle_seeds [[10], [20, 21, 22], [30, 31, 32]]) := by
  refine ⟨by decide, ?_⟩
  intro hf
  have h := hf 2 3 (by decide) (by decide) (by decide) (by decide) 1
    (by decide) (by decide)
  exact absurd h (by decide)

/-- C1 amended.  As long as no seed iterator exhausts — in particular when
all permuters' seed sequences have the same length, covering the
all-randomized (infinite) regime on any uniform finite prefix — the stream
produced by `cycle_seeds` is the strict round-robin interleaving: each full
rotation yields one seed from every permuter in index order.  (Fairness can
break at an exhaustion event, where the rotation revisits the previous
permuter; see the counterexample.) -/
theorem cycle_seeds_round_robin_of_uniform : ∀ (L : Nat) (perms : List (List Nat)),
    (∀ p ∈ perms, p.length = L) →
    cycle_seeds perms = specRoundRobin perms L := by
  intro L
  induction L with
  | zero =>
      intro perms hlen
      rw [cycle_seeds]
      have hall : ∀ p ∈ perms.enum, p.2 = [] := by
        intro p hp
        exact List.length_eq_zero.mp (hlen _ (snd_mem_of_mem_enumFrom perms 0 p hp))
      rw [cycleSeedsAux_all_nil _ _ _ hall (by omega)]
      rfl
  | succ L ihL =>
      intro perms hlen
      rw [cycle_seeds]
      have hne : ∀ p ∈ (perms.enum).drop 0, p.2 ≠ [] := by
        intro p hp
        rw [List.drop_zero] at hp
        intro hnil
        have := hlen _ (snd_mem_of_mem_enumFrom perms 0 p hp)
        rw [hnil] at this
        simp at this
      have hround := cycleSeedsAux_round (perms.enum).length
        (iterMeasure perms.enum + 1) perms.enum 0 (by omega) hne (by omega)
      rw [show (0 : Int) = ((0 : Nat) : Int) from rfl, hround]
      simp only [List.drop_zero, List.take_zero, List.nil_append]
      rw [enum_map_tail]
      have hlentail : ∀ p ∈ perms.map (fun s => s.tail), p.length = L := by
        intro p hp
        rcases List.mem_map.mp hp with ⟨q, hq, rfl⟩
        rw [List.length_tail, hlen q hq]
        omega
      have hM : iterMeasure perms.enum = perms.length * (L + 1 + 1) :=
        iterMeasure_enumFrom_const perms 0 (L + 1) hlen
      have hM' : iterMeasure (perms.map (fun s => s.tail)).enum
          = perms.length * (L + 1) := by
        have := iterMeasure_enumFrom_const (perms.map (fun s => s.tail)) 0 L hlentail
        rwa [List.length_map] at this
      have hfuel : iterMeasure perms.enum + 1 - perms.enum.length
          = iterMeasure (perms.map (fun s => s.tail)).enum + 1 := by
        rw [hM, hM', List.enum_length]
        have hexp : perms.length * (L + 1 + 1)
            = perms.length * (L + 1) + perms.length := by
          ring
        omega
      rw [hfuel]
      have hmodeq := cycleSeedsAux_congr_mod
        (iterMeasure (perms.map (fun s => s.tail)).enum + 1)
        ((perms.map (fun s => s.tail)).enum)
        ((perms.enum.length : Nat) : Int) 0
        (by
          rw [List.enum_length, List.enum_length, List.length_map, Int.emod_self,
            Int.zero_emod])
      rw [hmodeq, ← cycle_seeds, ihL _ hlentail]
      rfl

/-- Witness for C1 amended: two permuters with two seeds each interleave
strictly. -/
theorem cycle_seeds_round_robin_witness :
    cycle_seeds [[1, 2], [3, 4]] = specRoundRobin [[1, 2], [3, 4]] 2 :=
  cycle_seeds_round_robin_of_uniform 2 [[1, 2], [3, 4]] (by decide)
